import Mathlib

/-!
# VoxelPhysics: the voxel energy-transfer engine

A shallow embedding of the data model declared in `include/EnergyGrid.h`
(`EnergyGrid::mDirection`, `EnergyGrid::VoxelData`, `EnergyGrid::TransferNode`) and of
`MatterNode::simulateSelf` from `src/MatterNode.cpp`.

Conventions of the embedding.

* The C++ `float` fields are kept abstract: `VoxelData F` is parametric in the carrier `F`
  of energies, and `+` / `0` are whatever the carrier provides.  Every statement that is
  proved for all `F` therefore holds for IEEE binary32 with its own addition.  Concrete
  inputs use `Int` values that binary32 represents and adds exactly.
* A member function that mutates the object is a function returning the new object; a
  member function that is not `const` but returns a value returns the pair of the value
  and the object after the call.
* A data member that a constructor never assigns is `none`.
-/

namespace EnergyGrid

/-! ## VoxelData (`EnergyGrid.h`, lines 123-182) -/

/-- The per-voxel data used in all phases of energy transfer.  Field order follows the
member declarations of the class. -/
structure VoxelData (F : Type) where
  mStrength : F
  mEnergyInProjectedDirection : F
  mEnergyInRecievingDirection : F
  mPressure : F
  mStress : F
  mGraphed : Bool
  mDestroyed : Bool
  mSnapped : Bool
  mFull : Bool
  deriving DecidableEq

namespace VoxelData

variable {F : Type}

/-- The constructor `VoxelData()`: every scalar is `0.0f` and every flag is `false`. -/
def new [Zero F] : VoxelData F :=
  { mStrength := 0
    mEnergyInProjectedDirection := 0
    mEnergyInRecievingDirection := 0
    mStress := 0
    mPressure := 0
    mFull := false
    mGraphed := false
    mDestroyed := false
    mSnapped := false }

/-- The member `void setEnergy(bool recieving, float energy)`. -/
def setEnergy (v : VoxelData F) (recieving : Bool) (energy : F) : VoxelData F :=
  if recieving then
    { v with mEnergyInRecievingDirection := energy }
  else
    { v with mEnergyInProjectedDirection := energy }

/-- The member `void addEnergy(bool recieving, float energy)`. -/
def addEnergy [Add F] (v : VoxelData F) (recieving : Bool) (energy : F) : VoxelData F :=
  if recieving then
    { v with mEnergyInRecievingDirection := v.mEnergyInRecievingDirection + energy }
  else
    { v with mEnergyInProjectedDirection := v.mEnergyInProjectedDirection + energy }

/-- The member `float getEnergy(bool recieving)`.  The function is not declared `const`, so
the result carries the object after the call next to the returned value. -/
def getEnergy (v : VoxelData F) (recieving : Bool) : F × VoxelData F :=
  if recieving then
    (v.mEnergyInRecievingDirection, v)
  else
    (v.mEnergyInProjectedDirection, v)

end VoxelData

/-! ## Direction codes (`EnergyGrid.h`, lines 61-109 and 262) -/

/-- The enumeration `EnergyGrid::mDirection`, enumerators in declaration order. -/
inductive mDirection where
  | DOWN
  | UP
  | LEFT
  | RIGHT
  | FRONT
  | BACK
  | LEFT_FRONT
  | LEFT_BACK
  | RIGHT_FRONT
  | RIGHT_BACK
  | UP_LEFT
  | UP_RIGHT
  | UP_FRONT
  | UP_BACK
  | UP_LEFT_FRONT
  | UP_LEFT_BACK
  | UP_RIGHT_FRONT
  | UP_RIGHT_BACK
  | DOWN_LEFT
  | DOWN_RIGHT
  | DOWN_FRONT
  | DOWN_BACK
  | DOWN_LEFT_FRONT
  | DOWN_LEFT_BACK
  | DOWN_RIGHT_FRONT
  | DOWN_RIGHT_BACK
  deriving DecidableEq

/-- The three lattice axes. -/
inductive Axis where
  | vertical
  | horizontal
  | depth
  deriving DecidableEq

/-- The six words the enumerator identifiers are made of. -/
inductive Word where
  | down
  | up
  | left
  | right
  | front
  | back
  deriving DecidableEq

/-- The axis a word of an identifier names. -/
def Word.axis : Word → Axis
  | .down => .vertical
  | .up => .vertical
  | .left => .horizontal
  | .right => .horizontal
  | .front => .depth
  | .back => .depth

/-- The word for the opposite sense along the same axis. -/
def Word.opposite : Word → Word
  | .down => .up
  | .up => .down
  | .left => .right
  | .right => .left
  | .front => .back
  | .back => .front

namespace mDirection

/-- The enumerator list of `enum mDirection`, as written in the header. -/
def enumerators : List mDirection :=
  [DOWN, UP, LEFT, RIGHT, FRONT, BACK,
   LEFT_FRONT, LEFT_BACK, RIGHT_FRONT, RIGHT_BACK,
   UP_LEFT, UP_RIGHT, UP_FRONT, UP_BACK,
   UP_LEFT_FRONT, UP_LEFT_BACK, UP_RIGHT_FRONT, UP_RIGHT_BACK,
   DOWN_LEFT, DOWN_RIGHT, DOWN_FRONT, DOWN_BACK,
   DOWN_LEFT_FRONT, DOWN_LEFT_BACK, DOWN_RIGHT_FRONT, DOWN_RIGHT_BACK]

/-- The integer value of an enumerator.  No enumerator has an initialiser, so the first
one is 0 and each later one is its predecessor plus one: the value is the position in the
enumerator list. -/
def code (d : mDirection) : Nat :=
  enumerators.indexOf d

/-- The words of the identifier of an enumerator, split at the underscores. -/
def words : mDirection → List Word
  | DOWN => [.down]
  | UP => [.up]
  | LEFT => [.left]
  | RIGHT => [.right]
  | FRONT => [.front]
  | BACK => [.back]
  | LEFT_FRONT => [.left, .front]
  | LEFT_BACK => [.left, .back]
  | RIGHT_FRONT => [.right, .front]
  | RIGHT_BACK => [.right, .back]
  | UP_LEFT => [.up, .left]
  | UP_RIGHT => [.up, .right]
  | UP_FRONT => [.up, .front]
  | UP_BACK => [.up, .back]
  | UP_LEFT_FRONT => [.up, .left, .front]
  | UP_LEFT_BACK => [.up, .left, .back]
  | UP_RIGHT_FRONT => [.up, .right, .front]
  | UP_RIGHT_BACK => [.up, .right, .back]
  | DOWN_LEFT => [.down, .left]
  | DOWN_RIGHT => [.down, .right]
  | DOWN_FRONT => [.down, .front]
  | DOWN_BACK => [.down, .back]
  | DOWN_LEFT_FRONT => [.down, .left, .front]
  | DOWN_LEFT_BACK => [.down, .left, .back]
  | DOWN_RIGHT_FRONT => [.down, .right, .front]
  | DOWN_RIGHT_BACK => [.down, .right, .back]

/-- The axes named by an enumerator, each listed once. -/
def axesNamed (d : mDirection) : List Axis :=
  (d.words.map Word.axis).dedup

/-- The enumerators naming exactly `k` axes: `k = 1` the faces, `k = 2` the edges,
`k = 3` the corners of the 3x3x3 neighbourhood. -/
def namingAxes (k : Nat) : List mDirection :=
  enumerators.filter fun d => d.axesNamed.length == k

end mDirection

/-- Extent of the array member `float mRecieverMap[26]`. -/
def mRecieverMapExtent : Nat := 26

/-- Extent of the array member `float mProjectorMap[26]`. -/
def mProjectorMapExtent : Nat := 26

/-- Extent of the array member `float mDirectTransferMap[26]`. -/
def mDirectTransferMapExtent : Nat := 26

/-- Extent of the static member `static const Vector3i mDirectionVectors[26]`. -/
def mDirectionVectorsExtent : Nat := 26

/-- The integer vector type of `Vector3.h`.  That header is not among the sources; the
type is taken to be three signed integer components with component-wise operations. -/
structure Vector3i where
  x : Int
  y : Int
  z : Int
  deriving DecidableEq

instance : Add Vector3i := ⟨fun a b => ⟨a.x + b.x, a.y + b.y, a.z + b.z⟩⟩

instance : Neg Vector3i := ⟨fun a => ⟨-a.x, -a.y, -a.z⟩⟩

instance : Zero Vector3i := ⟨⟨0, 0, 0⟩⟩

/-- Modelled from the spec: the unit offset a word of a direction name stands for.  The
initialiser of `mDirectionVectors` is in `EnergyGrid.cpp`, which is not among the sources;
the spec calls the 26 codes the face, edge and corner neighbour directions.  The
orientation of the axes (right = +x, up = +y, front = +z) is a convention of this model. -/
def Word.offset : Word → Vector3i
  | .down => ⟨0, -1, 0⟩
  | .up => ⟨0, 1, 0⟩
  | .left => ⟨-1, 0, 0⟩
  | .right => ⟨1, 0, 0⟩
  | .front => ⟨0, 0, 1⟩
  | .back => ⟨0, 0, -1⟩

/-- Modelled from the spec: the table `mDirectionVectors[26]` (initialiser not among the
sources), indexed by direction code: entry `d` is the neighbour offset that the name of
enumerator `d` spells out. -/
def mDirectionVectors : List Vector3i :=
  mDirection.enumerators.map fun d => (d.words.map Word.offset).foldl (· + ·) 0

/-- Modelled from the spec: `getDirectionVector(char direction)`, whose body is in the
missing `EnergyGrid.cpp`: the lookup of the transfer vector indexed by the code.  A code
outside the table has no result. -/
def getDirectionVector (direction : Nat) : Option Vector3i :=
  mDirectionVectors[direction]?

/-- Modelled from the spec: `getReverseDirection(char direction)`, whose body is in the
missing `EnergyGrid.cpp`: the reverse-direction lookup indexed by the code.  The reverse
of a direction is the enumerator whose name has every word replaced by its opposite.  A
code outside 0..25 has no result. -/
def getReverseDirection (direction : Nat) : Option Nat :=
  match mDirection.enumerators[direction]? with
  | none => none
  | some d =>
    match mDirection.enumerators.find? fun r => r.words == d.words.map Word.opposite with
    | none => none
    | some r => some r.code

/-! ## TransferNode (`EnergyGrid.h`, lines 198-216) -/

/-- A node of the transfer graph.  `mFeeder` is a C++ `int`, `mFeederDirection` a `char`,
`mGeneration` an `unsigned int`; `mGeneration = none` means the member has not been
assigned. -/
structure TransferNode where
  mSource : Bool
  mFeeder : Int
  mFeederDirection : Int
  mVoxelCoord : Vector3i
  mGeneration : Option Nat
  mDeadEnd : Bool
  deriving DecidableEq

/-- The constructor `TransferNode(bool isSource, Vector3i coord)`.  It assigns five of the
six members; `mGeneration` is not mentioned in its body. -/
def TransferNode.new (isSource : Bool) (coord : Vector3i) : TransferNode :=
  { mSource := isSource
    mVoxelCoord := coord
    mFeeder := -1
    mFeederDirection := 30
    mDeadEnd := false
    mGeneration := none }

/-! ## The transfer graph (`EnergyGrid.h`, lines 191-228)

`buildTransferGraph`, `validCoord` and the seeding from the bridge table are declared in
the header and defined in `EnergyGrid.cpp`, which is not among the sources.  They are
modelled here from the description of the indirect transfer in the spec. -/

/-- Extents of the three nested vectors of `mVoxelData`. -/
structure Extent where
  sx : Nat
  sy : Nat
  sz : Nat
  deriving DecidableEq

/-- Number of voxels of a lattice. -/
def Extent.cells (e : Extent) : Nat :=
  e.sx * e.sy * e.sz

/-- Modelled from the spec: `validCoord(Vector3i target)` (body in the missing
`EnergyGrid.cpp`): the coordinate lies inside the voxel field, each component from 0 up to
the extent of its axis. -/
def validCoord (e : Extent) (target : Vector3i) : Bool :=
  decide (0 ≤ target.x) && decide (target.x < e.sx) &&
  decide (0 ≤ target.y) && decide (target.y < e.sy) &&
  decide (0 ≤ target.z) && decide (target.z < e.sz)

/-- The part of an `EnergyGrid` that graph building reads and writes: the voxel array
`mVoxelData`, addressed by coordinate, and the node vector `mTransferGraph`. -/
structure GraphState (F : Type) where
  mVoxelData : Vector3i → VoxelData F
  mTransferGraph : List TransferNode

/-- Modelled from the spec: the marking of a voxel as placed in the current transfer graph
(done in the missing `EnergyGrid.cpp`): set the `mGraphed` flag of the voxel at `c`. -/
def markGraphed {F : Type} (voxels : Vector3i → VoxelData F) (c : Vector3i) :
    Vector3i → VoxelData F :=
  fun t => if t = c then { voxels t with mGraphed := true } else voxels t

/-- Modelled from the spec: seeding of `buildTransferGraph` (missing `EnergyGrid.cpp`)
with one bridge voxel.  The voxel becomes a source node, at breadth-first distance 0; a
voxel outside the field or already graphed is not visited. -/
def addSource {F : Type} (e : Extent) (s : GraphState F) (c : Vector3i) : GraphState F :=
  if validCoord e c && !(s.mVoxelData c).mGraphed then
    { mVoxelData := markGraphed s.mVoxelData c
      mTransferGraph :=
        s.mTransferGraph ++ [{ TransferNode.new true c with mGeneration := some 0 }] }
  else
    s

/-- Modelled from the spec: one neighbour visit of `buildTransferGraph` (missing
`EnergyGrid.cpp`).  From the node at index `feeder`, with coordinate `coord` and
generation `generation`, look in direction `direction`: a newly visited neighbour becomes
a node whose feeder is the node it was reached from, with the feeder generation plus 1; a
voxel already graphed, or a coordinate outside the field, is not visited.  The flag
returned says whether a node was added. -/
def visitNeighbour {F : Type} (e : Extent) (feeder : Nat) (coord : Vector3i)
    (generation : Nat) (acc : GraphState F × Bool) (direction : Nat) :
    GraphState F × Bool :=
  match getDirectionVector direction with
  | none => acc
  | some v =>
    let target := coord + v
    if validCoord e target && !(acc.1.mVoxelData target).mGraphed then
      ({ mVoxelData := markGraphed acc.1.mVoxelData target
         mTransferGraph :=
           acc.1.mTransferGraph ++
             [{ TransferNode.new false target with
                mFeeder := (feeder : Int)
                mFeederDirection := (direction : Int)
                mGeneration := some (generation + 1) }] }, true)
    else
      acc

/-- Modelled from the spec: expansion of the node at index `i` in `buildTransferGraph`
(missing `EnergyGrid.cpp`): all 26 directions are tried in code order, and a node with no
un-graphed neighbour is marked dead-end. -/
def expandNode {F : Type} (e : Extent) (s : GraphState F) (i : Nat) : GraphState F :=
  match s.mTransferGraph[i]? with
  | none => s
  | some node =>
    let r := (List.range 26).foldl
      (visitNeighbour e i node.mVoxelCoord (node.mGeneration.getD 0)) (s, false)
    if r.2 then
      r.1
    else
      { r.1 with
        mTransferGraph := r.1.mTransferGraph.set i { node with mDeadEnd := true } }

/-- Modelled from the spec: the breadth-first loop of `buildTransferGraph` (missing
`EnergyGrid.cpp`): nodes are expanded in the order in which they were added, from index
`i` on, until every node has been expanded.  `fuel` bounds the number of expansions. -/
def expandFrom {F : Type} (e : Extent) : Nat → Nat → GraphState F → GraphState F
  | 0, _, s => s
  | fuel + 1, i, s =>
    if i < s.mTransferGraph.length then
      expandFrom e fuel (i + 1) (expandNode e s i)
    else
      s

/-- Modelled from the spec: `buildTransferGraph()` (missing `EnergyGrid.cpp`).  The graph
is built fresh: no voxel is graphed and there is no node.  The bridge voxels, in the
iteration order `bridges` of the bridge table, are the sources, and the breadth-first
expansion runs from them.  A lattice of `cells` voxels needs at most `cells` expansions,
because no voxel gets two nodes. -/
def buildTransferGraph {F : Type} (e : Extent) (bridges : List Vector3i)
    (voxels : Vector3i → VoxelData F) : GraphState F :=
  expandFrom e e.cells 0
    (bridges.foldl (addSource e)
      { mVoxelData := fun t => { voxels t with mGraphed := false }
        mTransferGraph := [] })

/-- The index of the feeder of node `i`, when node `i` exists and has a feeder index that
is not negative. -/
def feederOf (g : List TransferNode) (i : Nat) : Option Nat :=
  match g[i]? with
  | none => none
  | some n => if 0 ≤ n.mFeeder then some n.mFeeder.toNat else none

/-- Follow feeder links `k` times from node `i`. -/
def followFeeder (g : List TransferNode) : Nat → Nat → Option Nat
  | 0, i => some i
  | k + 1, i => (feederOf g i).bind (followFeeder g k)

end EnergyGrid

/-! ## MatterNode (`src/MatterNode.cpp`) -/

/-- The members of a `MatterNode` that `simulateSelf` and the constructors touch.  `M` is
the type of the `Matter` member (`Matter.h` is not among the sources). -/
structure MatterNode (M : Type) where
  mMatter : M
  mUpToDate : Bool

namespace MatterNode

variable {M : Type}

/-- The constructor taking a voxel file name (lines 7-12).  `matter` is the member as
built by the initialiser `mMatter(app, material, floats)`; `importVoxels` and
`setMaterial` are the effects of `Matter::import` and `Matter::setMaterial`. -/
def fromFile (matter : M) (importVoxels setMaterial : M → M) : MatterNode M :=
  { mMatter := setMaterial (importVoxels matter)
    mUpToDate := false }

/-- The constructor taking a voxel field (lines 14-19).  `setVoxelField` and `setMaterial`
are the effects of `Matter::setVoxelField` and `Matter::setMaterial`. -/
def fromVoxelField (matter : M) (setVoxelField setMaterial : M → M) : MatterNode M :=
  { mMatter := setMaterial (setVoxelField matter)
    mUpToDate := false }

end MatterNode

/-- A matter node together with the number of times the voxel converter
(`VoxelConverter::convert`) has been invoked on it. -/
structure Simulation (M : Type) where
  node : MatterNode M
  conversions : Nat

/-- The member `MatterNode::simulateSelf(GLdouble deltaTime)` (lines 31-38).  `convert` is
the effect of `mApp->getVoxelConverter()->convert(this)` on the node; `deltaTime` is not
used by the body. -/
def simulateSelf {M D : Type} (convert : MatterNode M → MatterNode M) (s : Simulation M)
    (_deltaTime : D) : Simulation M :=
  if !s.node.mUpToDate then
    { node := { convert s.node with mUpToDate := true }
      conversions := s.conversions + 1 }
  else
    s

/-- A sequence of `simulateSelf` calls, one per element of `deltaTimes`. -/
def simulateMany {M D : Type} (convert : MatterNode M → MatterNode M) (s : Simulation M)
    (deltaTimes : List D) : Simulation M :=
  deltaTimes.foldl (simulateSelf convert) s

/-- A voxel with the flags `mDestroyed`, `mSnapped` and `mFull` all set and no energy. -/
def EnergyGrid.VoxelData.flagged : EnergyGrid.VoxelData Int :=
  { mStrength := 0
    mEnergyInProjectedDirection := 0
    mEnergyInRecievingDirection := 0
    mPressure := 0
    mStress := 0
    mGraphed := false
    mDestroyed := true
    mSnapped := true
    mFull := true }

namespace EnergyGrid

/-- The generation recorded in the node at index `j` of a graph, when there is one. -/
def generationAt (g : List TransferNode) (j : Nat) : Option Nat :=
  g[j]?.bind fun m => m.mGeneration

/-- Node `n`, at index `i` of graph `g`, is either a source without feeder at generation
0, or a non-source whose feeder is an earlier node of `g` and whose generation is the
generation of the feeder plus 1. -/
def NodeLinked (g : List TransferNode) (i : Nat) (n : TransferNode) : Prop :=
  (n.mSource = true ∧ n.mFeeder = -1 ∧ n.mGeneration = some 0) ∨
  (n.mSource = false ∧ ∃ j k : Nat, j < i ∧ n.mFeeder = (j : Int) ∧
    generationAt g j = some k ∧ n.mGeneration = some (k + 1))

/-- Every node of the graph is linked as `NodeLinked` says. -/
def Linked (g : List TransferNode) : Prop :=
  ∀ (i : Nat) (n : TransferNode), g[i]? = some n → NodeLinked g i n

/-- The invariant of graph building: the nodes are linked, every node stands for a voxel
of the field that is flagged graphed, and no two nodes stand for the same voxel. -/
structure GraphInv {F : Type} (e : Extent) (s : GraphState F) : Prop where
  linked : Linked s.mTransferGraph
  covered : ∀ n ∈ s.mTransferGraph,
    validCoord e n.mVoxelCoord = true ∧ (s.mVoxelData n.mVoxelCoord).mGraphed = true
  distinct : (s.mTransferGraph.map fun n => n.mVoxelCoord).Nodup

/-- The graphed flags of the voxel array of a state. -/
def graphedAt {F : Type} (s : GraphState F) : Vector3i → Bool :=
  fun c => (s.mVoxelData c).mGraphed

/-- The voxel and the generation of every node of a graph, in node order.  Every node of a
built graph has a generation; a missing one would read as 0. -/
def entries (g : List TransferNode) : List (Vector3i × Nat) :=
  g.map fun n => (n.mVoxelCoord, n.mGeneration.getD 0)

/-- Voxel `c` is reached in `l` steps from the sources: there is a walk of `l` neighbour
steps (each along one of the 26 direction vectors, each arriving inside the field) from a
bridge voxel that lies inside the field to `c`.  The breadth-first distance of `c` from
the sources is the least such `l`. -/
inductive ReachIn (e : Extent) (bridges : List Vector3i) : Nat → Vector3i → Prop where
  | source (c : Vector3i) : c ∈ bridges → validCoord e c = true → ReachIn e bridges 0 c
  | step (l : Nat) (a : Vector3i) (d : Nat) (v : Vector3i) :
      ReachIn e bridges l a → getDirectionVector d = some v →
      validCoord e (a + v) = true → ReachIn e bridges (l + 1) (a + v)

/-- The neighbour of entry `p` in direction `d`, when it lies inside the field, has an
entry of its own, at a generation of at most the generation of `p` plus 1. -/
def ClosedAt (e : Extent) (L : List (Vector3i × Nat)) (p : Vector3i × Nat) (d : Nat) : Prop :=
  ∀ v : Vector3i, getDirectionVector d = some v → validCoord e (p.1 + v) = true →
    ∃ q ∈ L, q.1 = p.1 + v ∧ q.2 ≤ p.2 + 1

/-- The invariant of the breadth-first loop, with `i` the index of the next node to
expand, `gr` the graphed flags and `L` the entries of the graph: every graphed voxel has an
entry; generations do not decrease along the graph; every entry is reached from the
sources in as many steps as its generation; every bridge voxel inside the field has an
entry at generation 0; no entry is more than one generation beyond the node to expand;
every node already expanded is closed in every direction. -/
structure LoopInv (e : Extent) (bridges : List Vector3i) (gr : Vector3i → Bool)
    (L : List (Vector3i × Nat)) (i : Nat) : Prop where
  graphed_in : ∀ c : Vector3i, gr c = true → ∃ p ∈ L, p.1 = c
  mono : ∀ (a b : Nat) (pa pb : Vector3i × Nat), a ≤ b → L[a]? = some pa →
    L[b]? = some pb → pa.2 ≤ pb.2
  reach : ∀ p ∈ L, ReachIn e bridges p.2 p.1
  sources_in : ∀ c ∈ bridges, validCoord e c = true → ∃ p ∈ L, p.1 = c ∧ p.2 = 0
  frontier : ∀ pi : Vector3i × Nat, L[i]? = some pi → ∀ q ∈ L, q.2 ≤ pi.2 + 1
  closed : ∀ (a : Nat) (pa : Vector3i × Nat), a < i → L[a]? = some pa →
    ∀ d : Nat, ClosedAt e L pa d

/-- The invariant of the seeding: every graphed voxel has an entry, and every entry is a
bridge voxel inside the field, at generation 0. -/
structure SeedInv (e : Extent) (bridges : List Vector3i) (gr : Vector3i → Bool)
    (L : List (Vector3i × Nat)) : Prop where
  graphed_in : ∀ c : Vector3i, gr c = true → ∃ p ∈ L, p.1 = c
  seeds : ∀ p ∈ L, p.2 = 0 ∧ p.1 ∈ bridges ∧ validCoord e p.1 = true

/-- A node that is a source is the node `TransferNode(true, c)` of a bridge voxel `c`, with
generation 0 assigned, whatever its dead-end flag has become. -/
def SourceShaped (bridges : List Vector3i) (n : TransferNode) : Prop :=
  n.mSource = true →
    n = { TransferNode.new true n.mVoxelCoord with
          mGeneration := some 0
          mDeadEnd := n.mDeadEnd } ∧
    n.mVoxelCoord ∈ bridges

/-- The voxels of a sample lattice: all newly constructed. -/
def sampleVoxels : Vector3i → VoxelData Int :=
  fun _ => VoxelData.new

/-- The transfer graph of a 2 x 2 x 1 lattice with one bridge voxel, at the origin. -/
def sampleGraph : List TransferNode :=
  (buildTransferGraph ⟨2, 2, 1⟩ [⟨0, 0, 0⟩] sampleVoxels).mTransferGraph

/-- The transfer graph of a 3 x 1 x 1 lattice with one bridge voxel, at the origin. -/
def sampleLine : List TransferNode :=
  (buildTransferGraph ⟨3, 1, 1⟩ [⟨0, 0, 0⟩] sampleVoxels).mTransferGraph

end EnergyGrid

/-! # Theorems -/

namespace EnergyGrid

/-! ## VoxelData -/

/-- C1: energy is tracked separately per role.  After `setEnergy(r, e)`, `getEnergy(r)`
returns `e` and `getEnergy(!r)` returns what it returned before; after `addEnergy(r, e)`,
`getEnergy(r)` returns the previous `getEnergy(r)` plus `e` and `getEnergy(!r)` is
unchanged. -/
theorem VoxelData.energy_tracked_per_role {F : Type} [Add F] (v : VoxelData F) (r : Bool)
    (e : F) :
    ((v.setEnergy r e).getEnergy r).1 = e ∧
    ((v.setEnergy r e).getEnergy (!r)).1 = (v.getEnergy (!r)).1 ∧
    ((v.addEnergy r e).getEnergy r).1 = (v.getEnergy r).1 + e ∧
    ((v.addEnergy r e).getEnergy (!r)).1 = (v.getEnergy (!r)).1 := by
  cases r <;> simp [VoxelData.setEnergy, VoxelData.addEnergy, VoxelData.getEnergy]

/-- C4: the strength of a voxel is not changed by `setEnergy`, `addEnergy` or `getEnergy`,
and neither are `mStress`, `mPressure` and the flags `mFull`, `mGraphed`, `mDestroyed`,
`mSnapped`.  `setEnergy` and `addEnergy` change only the energy field of role `r` (the
energy field of the other role keeps its value), and `getEnergy` leaves the whole object
as it was. -/
theorem VoxelData.energy_operations_frame {F : Type} [Add F] (v : VoxelData F) (r : Bool)
    (e : F) :
    ((v.setEnergy r e).mStrength = v.mStrength ∧
      (v.setEnergy r e).mStress = v.mStress ∧
      (v.setEnergy r e).mPressure = v.mPressure ∧
      (v.setEnergy r e).mFull = v.mFull ∧
      (v.setEnergy r e).mGraphed = v.mGraphed ∧
      (v.setEnergy r e).mDestroyed = v.mDestroyed ∧
      (v.setEnergy r e).mSnapped = v.mSnapped ∧
      ((v.setEnergy r e).getEnergy (!r)).1 = (v.getEnergy (!r)).1) ∧
    ((v.addEnergy r e).mStrength = v.mStrength ∧
      (v.addEnergy r e).mStress = v.mStress ∧
      (v.addEnergy r e).mPressure = v.mPressure ∧
      (v.addEnergy r e).mFull = v.mFull ∧
      (v.addEnergy r e).mGraphed = v.mGraphed ∧
      (v.addEnergy r e).mDestroyed = v.mDestroyed ∧
      (v.addEnergy r e).mSnapped = v.mSnapped ∧
      ((v.addEnergy r e).getEnergy (!r)).1 = (v.getEnergy (!r)).1) ∧
    (v.getEnergy r).2 = v := by
  cases r <;> simp [VoxelData.setEnergy, VoxelData.addEnergy, VoxelData.getEnergy]

/-- C5, as stated, fails: the voxel `flagged` has `mDestroyed`, `mSnapped` and `mFull` set
and energy 0 in the receiving role, and after `addEnergy(true, 1)` its energy in the
receiving role is 1. -/
theorem VoxelData.flagged_voxel_takes_deposit :
    (VoxelData.flagged.mDestroyed = true ∧ VoxelData.flagged.mSnapped = true ∧
      VoxelData.flagged.mFull = true) ∧
    (VoxelData.flagged.getEnergy true).1 = 0 ∧
    ((VoxelData.flagged.addEnergy true 1).getEnergy true).1 = 1 ∧
    ((VoxelData.flagged.addEnergy true 1).getEnergy true).1 ≠
      (VoxelData.flagged.getEnergy true).1 := by
  decide

/-- C5, amended: for a voxel whose `mDestroyed`, `mSnapped` or `mFull` flag is set,
`addEnergy(r, e)` still adds `e` to the energy of role `r`; it leaves the energy of the
other role and the three flags unchanged. -/
theorem VoxelData.addEnergy_ignores_flags {F : Type} [Add F] (v : VoxelData F) (r : Bool)
    (e : F) (h : v.mDestroyed = true ∨ v.mSnapped = true ∨ v.mFull = true) :
    ((v.addEnergy r e).getEnergy r).1 = (v.getEnergy r).1 + e ∧
    ((v.addEnergy r e).getEnergy (!r)).1 = (v.getEnergy (!r)).1 ∧
    (v.addEnergy r e).mDestroyed = v.mDestroyed ∧
    (v.addEnergy r e).mSnapped = v.mSnapped ∧
    (v.addEnergy r e).mFull = v.mFull ∧
    ((v.addEnergy r e).mDestroyed = true ∨ (v.addEnergy r e).mSnapped = true ∨
      (v.addEnergy r e).mFull = true) := by
  have hflags : (v.addEnergy r e).mDestroyed = v.mDestroyed ∧
      (v.addEnergy r e).mSnapped = v.mSnapped ∧ (v.addEnergy r e).mFull = v.mFull := by
    cases r <;> simp [VoxelData.addEnergy]
  obtain ⟨hd, hs, hf⟩ := hflags
  refine ⟨?_, ?_, hd, hs, hf, ?_⟩
  · cases r <;> simp [VoxelData.addEnergy, VoxelData.getEnergy]
  · cases r <;> simp [VoxelData.addEnergy, VoxelData.getEnergy]
  · rw [hd, hs, hf]; exact h

/-- Witness of `addEnergy_ignores_flags`: the voxel `flagged`, receiving role, deposit 1. -/
theorem VoxelData.addEnergy_ignores_flags_witness :
    (VoxelData.flagged.mDestroyed = true ∨ VoxelData.flagged.mSnapped = true ∨
      VoxelData.flagged.mFull = true) ∧
    ((VoxelData.flagged.addEnergy true 1).getEnergy true).1 =
      (VoxelData.flagged.getEnergy true).1 + 1 :=
  ⟨by decide,
   (VoxelData.addEnergy_ignores_flags VoxelData.flagged true 1 (by decide)).1⟩

/-- C9: a newly constructed `VoxelData` has strength, stress, pressure and the energy of
both roles equal to 0, and none of the flags full, graphed, destroyed, snapped set. -/
theorem VoxelData.new_is_inert {F : Type} [Zero F] :
    (VoxelData.new : VoxelData F).mStrength = 0 ∧
    (VoxelData.new : VoxelData F).mStress = 0 ∧
    (VoxelData.new : VoxelData F).mPressure = 0 ∧
    ((VoxelData.new : VoxelData F).getEnergy true).1 = 0 ∧
    ((VoxelData.new : VoxelData F).getEnergy false).1 = 0 ∧
    (VoxelData.new : VoxelData F).mFull = false ∧
    (VoxelData.new : VoxelData F).mGraphed = false ∧
    (VoxelData.new : VoxelData F).mDestroyed = false ∧
    (VoxelData.new : VoxelData F).mSnapped = false := by
  simp [VoxelData.new, VoxelData.getEnergy]

/-! ## Direction codes -/

/-- C2: the enumeration has exactly 26 enumerators (the list has 26 entries, without
repetition, and every value of the type is in it); their codes are pairwise distinct and
are exactly 0, 1, ..., 25, with `DOWN = 0` and `DOWN_RIGHT_BACK = 25`; 6 of them name one
axis, 12 name two and 8 name three; each of the four directional arrays has 26 entries, so
every code is a valid index of each. -/
theorem mDirection.codes_enumerate_neighbours :
    mDirection.enumerators.length = 26 ∧
    mDirection.enumerators.Nodup ∧
    (∀ d : mDirection, d ∈ mDirection.enumerators) ∧
    (mDirection.enumerators.map mDirection.code).Nodup ∧
    mDirection.enumerators.map mDirection.code = List.range 26 ∧
    mDirection.DOWN.code = 0 ∧
    mDirection.DOWN_RIGHT_BACK.code = 25 ∧
    (mDirection.namingAxes 1).length = 6 ∧
    (mDirection.namingAxes 2).length = 12 ∧
    (mDirection.namingAxes 3).length = 8 ∧
    (mRecieverMapExtent = 26 ∧ mProjectorMapExtent = 26 ∧
      mDirectTransferMapExtent = 26 ∧ mDirectionVectorsExtent = 26) ∧
    Function.Injective mDirection.code ∧
    (∀ d : mDirection,
      d.code < mRecieverMapExtent ∧ d.code < mProjectorMapExtent ∧
      d.code < mDirectTransferMapExtent ∧ d.code < mDirectionVectorsExtent) := by
  refine ⟨by decide, by decide, ?_, by decide, by decide, by decide, by decide, by decide,
    by decide, by decide, by decide, ?_, ?_⟩
  · intro d; cases d <;> decide
  · intro a b; cases a <;> cases b <;> decide
  · intro d; cases d <;> decide

/-- C3: for every direction code `d` in 0..25 the reverse of the reverse of `d` is `d`,
and the direction vector of `d` is the component-wise negation of the direction vector of
the reverse of `d`. -/
theorem reverse_direction_involutive (d : Nat) (h : d < 26) :
    (getReverseDirection d).bind getReverseDirection = some d ∧
    (getDirectionVector d).isSome = true ∧
    getDirectionVector d =
      ((getReverseDirection d).bind getDirectionVector).map fun w => -w := by
  interval_cases d <;> decide

/-- Witness of `reverse_direction_involutive` at code 14, `UP_LEFT_FRONT`, whose reverse
is code 25, `DOWN_RIGHT_BACK`. -/
theorem reverse_direction_involutive_witness :
    14 < 26 ∧ getReverseDirection 14 = some 25 ∧
    (getReverseDirection 14).bind getReverseDirection = some 14 ∧
    getDirectionVector 14 =
      ((getReverseDirection 14).bind getDirectionVector).map fun w => -w :=
  ⟨by decide, by decide, (reverse_direction_involutive 14 (by decide)).1,
   (reverse_direction_involutive 14 (by decide)).2.2⟩

/-! ## TransferNode -/

/-- C6: the node `TransferNode(true, c)` is a source at `c` with feeder index -1, which is
the index of no node (an index is a natural number), so that the node has no feeder; its
feeder direction is 30, which is the code of no direction. -/
theorem TransferNode.source_has_no_feeder (c : Vector3i) :
    (TransferNode.new true c).mSource = true ∧
    (TransferNode.new true c).mVoxelCoord = c ∧
    (TransferNode.new true c).mFeeder = -1 ∧
    (∀ i : Nat, (TransferNode.new true c).mFeeder ≠ (i : Int)) ∧
    feederOf [TransferNode.new true c] 0 = none ∧
    (TransferNode.new true c).mFeederDirection = 30 ∧
    (∀ d : mDirection, (TransferNode.new true c).mFeederDirection ≠ (d.code : Int)) := by
  refine ⟨rfl, rfl, rfl, ?_, ?_, rfl, ?_⟩
  · intro i
    simp only [TransferNode.new]
    omega
  · simp [feederOf, TransferNode.new]
  · intro d
    simp only [TransferNode.new]
    cases d <;> decide

/-! ## The transfer graph -/

theorem generationAt_lt {g : List TransferNode} {j k : Nat}
    (h : generationAt g j = some k) : j < g.length := by
  by_contra hj
  have : g[j]? = none := List.getElem?_eq_none (Nat.le_of_not_lt hj)
  simp [generationAt, this] at h

theorem generationAt_append {g : List TransferNode} (l : List TransferNode) {j : Nat}
    (h : j < g.length) : generationAt (g ++ l) j = generationAt g j := by
  simp [generationAt, List.getElem?_append_left h]

theorem generationAt_set {g : List TransferNode} {i : Nat} {node : TransferNode}
    (n : TransferNode) (hi : g[i]? = some node) (hn : n.mGeneration = node.mGeneration)
    (j : Nat) :
    generationAt (g.set i n) j = generationAt g j := by
  unfold generationAt
  rw [List.getElem?_set]
  by_cases hij : i = j
  · subst hij
    have hlt : i < g.length := (List.getElem?_eq_some.mp hi).1
    simp [hlt, hi, hn]
  · simp [hij]

theorem nodeLinked_congr {g h : List TransferNode} {i : Nat} {n m : TransferNode}
    (hg : ∀ j k, generationAt g j = some k → generationAt h j = some k)
    (hs : m.mSource = n.mSource) (hf : m.mFeeder = n.mFeeder)
    (hgen : m.mGeneration = n.mGeneration) (hl : NodeLinked g i n) : NodeLinked h i m := by
  rcases hl with ⟨h1, h2, h3⟩ | ⟨h1, j, k, hj, h2, h3, h4⟩
  · exact Or.inl ⟨hs.trans h1, hf.trans h2, hgen.trans h3⟩
  · exact Or.inr ⟨hs.trans h1, j, k, hj, hf.trans h2, hg j k h3, hgen.trans h4⟩

theorem linked_push {g : List TransferNode} {n : TransferNode} (hg : Linked g)
    (hn : NodeLinked g g.length n) : Linked (g ++ [n]) := by
  have hmono : ∀ j k, generationAt g j = some k → generationAt (g ++ [n]) j = some k := by
    intro j k hjk
    rw [generationAt_append [n] (generationAt_lt hjk)]
    exact hjk
  intro i m hm
  by_cases hi : i < g.length
  · rw [List.getElem?_append_left hi] at hm
    exact nodeLinked_congr hmono rfl rfl rfl (hg i m hm)
  · have hlen : i < (g ++ [n]).length := (List.getElem?_eq_some.mp hm).1
    have hi2 : i = g.length := by
      simp only [List.length_append, List.length_singleton] at hlen
      omega
    subst hi2
    rw [List.getElem?_concat_length] at hm
    cases hm
    exact nodeLinked_congr hmono rfl rfl rfl hn

theorem linked_setDeadEnd {g : List TransferNode} {i : Nat} {node : TransferNode}
    (hg : Linked g) (hi : g[i]? = some node) :
    Linked (g.set i { node with mDeadEnd := true }) := by
  have hmono : ∀ j k, generationAt g j = some k →
      generationAt (g.set i { node with mDeadEnd := true }) j = some k := by
    intro j k hjk
    exact (generationAt_set { node with mDeadEnd := true } hi rfl j).trans hjk
  intro j m hm
  rw [List.getElem?_set] at hm
  by_cases hij : i = j
  · subst hij
    have hlt : i < g.length := (List.getElem?_eq_some.mp hi).1
    simp only [hlt, if_true] at hm
    cases hm
    exact nodeLinked_congr hmono rfl rfl rfl (hg i node hi)
  · simp only [hij, if_false] at hm
    exact nodeLinked_congr hmono rfl rfl rfl (hg j m hm)

theorem markGraphed_self {F : Type} (voxels : Vector3i → VoxelData F) (c : Vector3i) :
    (markGraphed voxels c c).mGraphed = true := by
  simp [markGraphed]

theorem markGraphed_mono {F : Type} (voxels : Vector3i → VoxelData F) (c t : Vector3i)
    (h : (voxels t).mGraphed = true) : (markGraphed voxels c t).mGraphed = true := by
  unfold markGraphed
  split
  · rfl
  · exact h

theorem graphInv_push {F : Type} {e : Extent} {s : GraphState F} (n : TransferNode)
    (hs : GraphInv e s) (hv : validCoord e n.mVoxelCoord = true)
    (hg : (s.mVoxelData n.mVoxelCoord).mGraphed = false)
    (hn : NodeLinked s.mTransferGraph s.mTransferGraph.length n) :
    GraphInv e
      { mVoxelData := markGraphed s.mVoxelData n.mVoxelCoord
        mTransferGraph := s.mTransferGraph ++ [n] } := by
  refine ⟨linked_push hs.linked hn, ?_, ?_⟩
  · intro m hm
    rcases List.mem_append.mp hm with hm | hm
    · exact ⟨(hs.covered m hm).1, markGraphed_mono _ _ _ (hs.covered m hm).2⟩
    · rw [List.mem_singleton] at hm
      subst hm
      exact ⟨hv, markGraphed_self _ _⟩
  · show (List.map (fun n => n.mVoxelCoord) (s.mTransferGraph ++ [n])).Nodup
    rw [List.map_append, List.nodup_append]
    refine ⟨hs.distinct, by simp, ?_⟩
    intro c hc hc2
    simp only [List.map_cons, List.map_nil, List.mem_singleton] at hc2
    subst hc2
    obtain ⟨m, hm, hmc⟩ := List.mem_map.mp hc
    have := (hs.covered m hm).2
    rw [hmc, hg] at this
    exact Bool.noConfusion this

theorem graphInv_setDeadEnd {F : Type} {e : Extent} {s : GraphState F} {i : Nat}
    {node : TransferNode} (hs : GraphInv e s) (hi : s.mTransferGraph[i]? = some node) :
    GraphInv e
      { s with mTransferGraph := s.mTransferGraph.set i { node with mDeadEnd := true } } := by
  have hmap : (s.mTransferGraph.set i { node with mDeadEnd := true }).map
      (fun n : TransferNode => n.mVoxelCoord) =
      s.mTransferGraph.map fun n => n.mVoxelCoord := by
    apply List.ext_getElem?
    intro j
    rw [List.getElem?_map, List.getElem?_map, List.getElem?_set]
    by_cases hij : i = j
    · subst hij
      have hlt : i < s.mTransferGraph.length := (List.getElem?_eq_some.mp hi).1
      simp [hlt, hi]
    · simp [hij]
  refine ⟨linked_setDeadEnd hs.linked hi, ?_, ?_⟩
  · intro m hm
    rcases List.mem_or_eq_of_mem_set hm with hm | hm
    · exact hs.covered m hm
    · subst hm
      exact hs.covered node (List.mem_iff_getElem?.mpr ⟨i, hi⟩)
  · show (List.map (fun n : TransferNode => n.mVoxelCoord) _).Nodup
    rw [hmap]
    exact hs.distinct

theorem linked_generation_isSome {g : List TransferNode} (hg : Linked g) {i : Nat}
    {n : TransferNode} (hi : g[i]? = some n) : ∃ k, n.mGeneration = some k := by
  rcases hg i n hi with ⟨_, _, h⟩ | ⟨_, _, k, _, _, _, h⟩
  · exact ⟨0, h⟩
  · exact ⟨k + 1, h⟩

theorem graphInv_empty {F : Type} (e : Extent) (voxels : Vector3i → VoxelData F) :
    GraphInv e { mVoxelData := voxels, mTransferGraph := [] } := by
  refine ⟨?_, ?_, ?_⟩
  · intro i n hi
    simp at hi
  · intro n hn
    simp at hn
  · simp

theorem addSource_inv {F : Type} {e : Extent} {s : GraphState F} (hs : GraphInv e s)
    (c : Vector3i) : GraphInv e (addSource e s c) := by
  unfold EnergyGrid.addSource
  split
  · rename_i h
    simp only [Bool.and_eq_true, Bool.not_eq_true'] at h
    exact graphInv_push { TransferNode.new true c with mGeneration := some 0 } hs h.1 h.2
      (Or.inl ⟨rfl, rfl, rfl⟩)
  · exact hs

theorem addSources_inv {F : Type} {e : Extent} (bridges : List Vector3i)
    {s : GraphState F} (hs : GraphInv e s) : GraphInv e (bridges.foldl (addSource e) s) := by
  induction bridges generalizing s with
  | nil => exact hs
  | cons c cs ih => exact ih (addSource_inv hs c)

theorem visitNeighbour_inv {F : Type} {e : Extent} {i k : Nat} {node : TransferNode}
    (hk : node.mGeneration = some k) (acc : GraphState F × Bool) (d : Nat)
    (h : GraphInv e acc.1) (hi : acc.1.mTransferGraph[i]? = some node) :
    GraphInv e (visitNeighbour e i node.mVoxelCoord k acc d).1 ∧
    (visitNeighbour e i node.mVoxelCoord k acc d).1.mTransferGraph[i]? = some node := by
  have hlt : i < acc.1.mTransferGraph.length := (List.getElem?_eq_some.mp hi).1
  unfold visitNeighbour
  split
  · exact ⟨h, hi⟩
  · rename_i v hv
    dsimp only
    split
    · rename_i hc
      simp only [Bool.and_eq_true, Bool.not_eq_true'] at hc
      refine ⟨?_, ?_⟩
      · refine graphInv_push
          { TransferNode.new false (node.mVoxelCoord + v) with
            mFeeder := (i : Int)
            mFeederDirection := (d : Int)
            mGeneration := some (k + 1) } h hc.1 hc.2 ?_
        refine Or.inr ⟨rfl, i, k, hlt, rfl, ?_, rfl⟩
        simp [generationAt, hi, hk]
      · show (acc.1.mTransferGraph ++ _)[i]? = some node
        rw [List.getElem?_append_left hlt]
        exact hi
    · exact ⟨h, hi⟩

theorem visitNeighbours_inv {F : Type} {e : Extent} {i k : Nat} {node : TransferNode}
    (hk : node.mGeneration = some k) (ds : List Nat) (acc : GraphState F × Bool)
    (h : GraphInv e acc.1) (hi : acc.1.mTransferGraph[i]? = some node) :
    GraphInv e (ds.foldl (visitNeighbour e i node.mVoxelCoord k) acc).1 ∧
    (ds.foldl (visitNeighbour e i node.mVoxelCoord k) acc).1.mTransferGraph[i]?
      = some node := by
  induction ds generalizing acc with
  | nil => exact ⟨h, hi⟩
  | cons d ds ih =>
    obtain ⟨h1, h2⟩ := visitNeighbour_inv hk acc d h hi
    exact ih _ h1 h2

theorem expandNode_inv {F : Type} {e : Extent} {s : GraphState F} (hs : GraphInv e s)
    (i : Nat) : GraphInv e (expandNode e s i) := by
  unfold EnergyGrid.expandNode
  split
  · exact hs
  · rename_i node hi
    obtain ⟨k, hk⟩ := linked_generation_isSome hs.linked hi
    have hfold := visitNeighbours_inv hk (List.range 26) (s, false) hs hi
    have hgd : node.mGeneration.getD 0 = k := by rw [hk]; rfl
    rw [hgd]
    dsimp only
    split
    · exact hfold.1
    · exact graphInv_setDeadEnd hfold.1 hfold.2

theorem expandFrom_inv {F : Type} {e : Extent} (fuel : Nat) (i : Nat)
    {s : GraphState F} (hs : GraphInv e s) : GraphInv e (expandFrom e fuel i s) := by
  induction fuel generalizing i s with
  | zero => exact hs
  | succ fuel ih =>
    unfold EnergyGrid.expandFrom
    split
    · exact ih (i + 1) (expandNode_inv hs i)
    · exact hs

theorem buildTransferGraph_inv {F : Type} (e : Extent) (bridges : List Vector3i)
    (voxels : Vector3i → VoxelData F) : GraphInv e (buildTransferGraph e bridges voxels) :=
  expandFrom_inv e.cells 0 (addSources_inv bridges (graphInv_empty e _))

theorem linked_feederOf_lt {g : List TransferNode} (hg : Linked g) {i j : Nat}
    (h : feederOf g i = some j) : j < i := by
  unfold feederOf at h
  split at h
  · cases h
  · rename_i n hn
    split at h
    · rename_i h0
      rcases hg i n hn with ⟨_, hf, _⟩ | ⟨_, a, k, ha, hf, _, _⟩
      · omega
      · cases h
        rw [hf]
        simpa using ha
    · cases h

theorem linked_followFeeder_le {g : List TransferNode} (hg : Linked g) :
    ∀ (k i r : Nat), followFeeder g k i = some r → r + k ≤ i
  | 0, i, r, h => by
    simp only [followFeeder, Option.some.injEq] at h
    omega
  | k + 1, i, r, h => by
    simp only [followFeeder] at h
    obtain ⟨j, hj, hr⟩ := Option.bind_eq_some.mp h
    have h1 := linked_feederOf_lt hg hj
    have h2 := linked_followFeeder_le hg k j r hr
    omega

theorem linked_generation_links {g : List TransferNode} (hg : Linked g) (i : Nat) :
    ∀ (n : TransferNode) (k : Nat), g[i]? = some n → n.mGeneration = some k →
      ∃ (r : Nat) (m : TransferNode), followFeeder g k i = some r ∧ g[r]? = some m ∧
        m.mSource = true ∧ m.mFeeder = -1 ∧ m.mGeneration = some 0 := by
  induction i using Nat.strong_induction_on with
  | _ i ih =>
    intro n k hn hk
    rcases hg i n hn with ⟨h1, h2, h3⟩ | ⟨h1, j, kj, hj, h2, h3, h4⟩
    · rw [h3] at hk
      cases hk
      exact ⟨i, n, rfl, hn, h1, h2, h3⟩
    · rw [h4] at hk
      cases hk
      have hjl := generationAt_lt h3
      obtain ⟨m, hm⟩ : ∃ m, g[j]? = some m := ⟨g[j], List.getElem?_eq_getElem hjl⟩
      have hmg : m.mGeneration = some kj := by
        simpa [generationAt, hm] using h3
      obtain ⟨r, root, hr, hroot⟩ := ih j hj m kj hm hmg
      refine ⟨r, root, ?_, hroot⟩
      have hfeed : feederOf g i = some j := by
        simp [feederOf, hn, h2]
      simp only [followFeeder, hfeed, Option.some_bind]
      exact hr

theorem validCoord_bounds {e : Extent} {c : Vector3i} (h : validCoord e c = true) :
    (0 ≤ c.x ∧ c.x < e.sx) ∧ (0 ≤ c.y ∧ c.y < e.sy) ∧ (0 ≤ c.z ∧ c.z < e.sz) := by
  simp only [validCoord, Bool.and_eq_true, decide_eq_true_eq] at h
  omega

theorem graphInv_length_le {F : Type} {e : Extent} {s : GraphState F} (hs : GraphInv e s) :
    s.mTransferGraph.length ≤ e.cells := by
  let box : Finset (Nat × Nat × Nat) :=
    Finset.range e.sx ×ˢ (Finset.range e.sy ×ˢ Finset.range e.sz)
  let pt : Nat × Nat × Nat → Vector3i := fun p => ⟨(p.1 : Int), (p.2.1 : Int), (p.2.2 : Int)⟩
  have hsub : (s.mTransferGraph.map fun n => n.mVoxelCoord).toFinset ⊆ box.image pt := by
    intro c hc
    rw [List.mem_toFinset] at hc
    obtain ⟨n, hn, hnc⟩ := List.mem_map.mp hc
    have hb := validCoord_bounds (hs.covered n hn).1
    rw [hnc] at hb
    rw [Finset.mem_image]
    refine ⟨(c.x.toNat, c.y.toNat, c.z.toNat), ?_, ?_⟩
    · simp only [box, Finset.mem_product, Finset.mem_range]
      omega
    · simp only [pt]
      have hx : ((c.x.toNat : Nat) : Int) = c.x := Int.toNat_of_nonneg hb.1.1
      have hy : ((c.y.toNat : Nat) : Int) = c.y := Int.toNat_of_nonneg hb.2.1.1
      have hz : ((c.z.toNat : Nat) : Int) = c.z := Int.toNat_of_nonneg hb.2.2.1
      rw [hx, hy, hz]
  have hcard : (s.mTransferGraph.map fun n => n.mVoxelCoord).toFinset.card
      = s.mTransferGraph.length := by
    rw [List.toFinset_card_of_nodup hs.distinct, List.length_map]
  have hbox : box.card = e.cells := by
    simp only [box, Finset.card_product, Finset.card_range, Extent.cells]
    ring
  calc s.mTransferGraph.length
      = (s.mTransferGraph.map fun n => n.mVoxelCoord).toFinset.card := hcard.symm
    _ ≤ (box.image pt).card := Finset.card_le_card hsub
    _ ≤ box.card := Finset.card_image_le
    _ = e.cells := hbox

theorem expandFrom_fuel {F : Type} {e : Extent} (extra : Nat) :
    ∀ (fuel i : Nat) (s : GraphState F), GraphInv e s → e.cells ≤ fuel + i →
      expandFrom e (fuel + extra) i s = expandFrom e fuel i s
  | 0, i, s, hs, hc => by
    cases extra with
    | zero => rfl
    | succ x =>
      have hlen := graphInv_length_le hs
      have hni : ¬ i < s.mTransferGraph.length := by omega
      simp [expandFrom, hni]
  | fuel + 1, i, s, hs, hc => by
    rw [Nat.add_right_comm]
    unfold expandFrom
    split
    · exact expandFrom_fuel extra fuel (i + 1) _ (expandNode_inv hs i) (by omega)
    · rfl

/-- The breadth-first loop of `buildTransferGraph` stops because every node has been
expanded, not because the bound on the number of expansions is used up: a larger bound
gives the same graph. -/
theorem buildTransferGraph_fuel {F : Type} (e : Extent) (bridges : List Vector3i)
    (voxels : Vector3i → VoxelData F) (extra : Nat) :
    expandFrom e (e.cells + extra) 0
      (bridges.foldl (addSource e)
        { mVoxelData := fun t => { voxels t with mGraphed := false }
          mTransferGraph := [] }) = buildTransferGraph e bridges voxels :=
  expandFrom_fuel extra e.cells 0 _ (addSources_inv bridges (graphInv_empty e _))
    (Nat.le_add_right _ _)

/-! ### Generations are breadth-first distances -/

theorem entries_append (g : List TransferNode) (n : TransferNode) :
    entries (g ++ [n]) = entries g ++ [(n.mVoxelCoord, n.mGeneration.getD 0)] := by
  simp [entries]

theorem entries_setDeadEnd {g : List TransferNode} {i : Nat} {node : TransferNode}
    (hi : g[i]? = some node) :
    entries (g.set i { node with mDeadEnd := true }) = entries g := by
  unfold entries
  apply List.ext_getElem?
  intro j
  rw [List.getElem?_map, List.getElem?_map, List.getElem?_set]
  by_cases hij : i = j
  · subst hij
    have hlt : i < g.length := (List.getElem?_eq_some.mp hi).1
    simp [hlt, hi]
  · simp [hij]

theorem entries_getElem? {g : List TransferNode} {i : Nat} {n : TransferNode}
    (h : g[i]? = some n) :
    (entries g)[i]? = some (n.mVoxelCoord, n.mGeneration.getD 0) := by
  simp [entries, h]

theorem getElem?_concat_ge {α : Type} {L : List α} {x p : α} {a : Nat}
    (ha : ¬ a < L.length) (h : (L ++ [x])[a]? = some p) : p = x := by
  have hlen : a < (L ++ [x]).length := (List.getElem?_eq_some.mp h).1
  have ha2 : a = L.length := by
    simp only [List.length_append, List.length_singleton] at hlen
    omega
  subst ha2
  rw [List.getElem?_concat_length] at h
  cases h
  rfl

theorem closedAt_mono {e : Extent} {L M : List (Vector3i × Nat)} {p : Vector3i × Nat}
    {d : Nat} (h : ClosedAt e L p d) (hsub : ∀ q ∈ L, q ∈ M) : ClosedAt e M p d := by
  intro v hv hvalid
  obtain ⟨q, hq, h1, h2⟩ := h v hv hvalid
  exact ⟨q, hsub q hq, h1, h2⟩

theorem getDirectionVector_lt {d : Nat} {v : Vector3i}
    (h : getDirectionVector d = some v) : d < 26 := by
  have hlen : mDirectionVectors.length = 26 := by decide
  have := (List.getElem?_eq_some.mp h).1
  omega

theorem loopInv_push {e : Extent} {bridges : List Vector3i} {gr gr2 : Vector3i → Bool}
    {L : List (Vector3i × Nat)} {i : Nat} {cur : Vector3i × Nat} {c : Vector3i}
    (h : LoopInv e bridges gr L i) (hcur : L[i]? = some cur)
    (hgr : ∀ t, gr2 t = true → t = c ∨ gr t = true)
    (hreach : ReachIn e bridges (cur.2 + 1) c) :
    LoopInv e bridges gr2 (L ++ [(c, cur.2 + 1)]) i := by
  have hlt : i < L.length := (List.getElem?_eq_some.mp hcur).1
  refine ⟨?_, ?_, ?_, ?_, ?_, ?_⟩
  · intro t ht
    rcases hgr t ht with rfl | ht
    · exact ⟨(t, cur.2 + 1), by simp, rfl⟩
    · obtain ⟨p, hp, hpc⟩ := h.graphed_in t ht
      exact ⟨p, List.mem_append_left _ hp, hpc⟩
  · intro a b pa pb hab ha hb
    by_cases hbl : b < L.length
    · have hal : a < L.length := by omega
      rw [List.getElem?_append_left hal] at ha
      rw [List.getElem?_append_left hbl] at hb
      exact h.mono a b pa pb hab ha hb
    · have hpb := getElem?_concat_ge hbl hb
      subst hpb
      by_cases hal : a < L.length
      · rw [List.getElem?_append_left hal] at ha
        exact h.frontier cur hcur pa (List.mem_iff_getElem?.mpr ⟨a, ha⟩)
      · have hpa := getElem?_concat_ge hal ha
        subst hpa
        exact le_refl _
  · intro p hp
    rcases List.mem_append.mp hp with hp | hp
    · exact h.reach p hp
    · rw [List.mem_singleton] at hp
      subst hp
      exact hreach
  · intro s hs hv
    obtain ⟨p, hp, h1, h2⟩ := h.sources_in s hs hv
    exact ⟨p, List.mem_append_left _ hp, h1, h2⟩
  · intro pj hpj q hq
    rw [List.getElem?_append_left hlt, hcur] at hpj
    cases hpj
    rcases List.mem_append.mp hq with hq | hq
    · exact h.frontier cur hcur q hq
    · rw [List.mem_singleton] at hq
      subst hq
      exact le_refl _
  · intro a pa ha hpa d
    have hal : a < L.length := by omega
    rw [List.getElem?_append_left hal] at hpa
    exact closedAt_mono (h.closed a pa ha hpa d) (fun q hq => List.mem_append_left _ hq)

theorem loopInv_advance {e : Extent} {bridges : List Vector3i} {gr : Vector3i → Bool}
    {L : List (Vector3i × Nat)} {i : Nat} {cur : Vector3i × Nat}
    (h : LoopInv e bridges gr L i) (hcur : L[i]? = some cur)
    (hclosed : ∀ d ∈ List.range 26, ClosedAt e L cur d) :
    LoopInv e bridges gr L (i + 1) := by
  refine ⟨h.graphed_in, h.mono, h.reach, h.sources_in, ?_, ?_⟩
  · intro pj hpj q hq
    have h1 := h.mono i (i + 1) cur pj (Nat.le_succ i) hcur hpj
    have h2 := h.frontier cur hcur q hq
    omega
  · intro a pa ha hpa d
    by_cases hai : a < i
    · exact h.closed a pa hai hpa d
    · have hai2 : a = i := by omega
      subst hai2
      rw [hcur] at hpa
      cases hpa
      by_cases hd : d < 26
      · exact hclosed d (List.mem_range.mpr hd)
      · intro v hv
        exact absurd (getDirectionVector_lt hv) hd

theorem visitNeighbour_bfs {F : Type} {e : Extent} {bridges : List Vector3i} {i k : Nat}
    {node : TransferNode} (done : List Nat) (hk : node.mGeneration = some k)
    (acc : GraphState F × Bool) (d : Nat)
    (hi : acc.1.mTransferGraph[i]? = some node)
    (h : LoopInv e bridges (graphedAt acc.1) (entries acc.1.mTransferGraph) i)
    (hdone : ∀ x ∈ done,
      ClosedAt e (entries acc.1.mTransferGraph) (node.mVoxelCoord, k) x) :
    LoopInv e bridges (graphedAt (visitNeighbour e i node.mVoxelCoord k acc d).1)
      (entries (visitNeighbour e i node.mVoxelCoord k acc d).1.mTransferGraph) i ∧
    ∀ x ∈ done ++ [d],
      ClosedAt e (entries (visitNeighbour e i node.mVoxelCoord k acc d).1.mTransferGraph)
        (node.mVoxelCoord, k) x := by
  have hcur : (entries acc.1.mTransferGraph)[i]? = some (node.mVoxelCoord, k) := by
    rw [entries_getElem? hi, hk]
    rfl
  unfold visitNeighbour
  split
  · rename_i hnone
    refine ⟨h, ?_⟩
    intro x hx
    rcases List.mem_append.mp hx with hx | hx
    · exact hdone x hx
    · rw [List.mem_singleton] at hx
      subst hx
      intro v hv
      rw [hnone] at hv
      cases hv
  · rename_i v hv
    dsimp only
    split
    · rename_i hc
      simp only [Bool.and_eq_true, Bool.not_eq_true'] at hc
      have hsub : ∀ q ∈ entries acc.1.mTransferGraph,
          q ∈ entries acc.1.mTransferGraph ++ [(node.mVoxelCoord + v, k + 1)] :=
        fun q hq => List.mem_append_left _ hq
      rw [entries_append]
      refine ⟨?_, ?_⟩
      · refine loopInv_push h hcur ?_ ?_
        · intro t ht
          by_cases htc : t = node.mVoxelCoord + v
          · exact Or.inl htc
          · right
            simpa [graphedAt, markGraphed, htc] using ht
        · exact ReachIn.step k node.mVoxelCoord d v
            (h.reach _ (List.mem_iff_getElem?.mpr ⟨i, hcur⟩)) hv hc.1
      · intro x hx
        rcases List.mem_append.mp hx with hx | hx
        · exact closedAt_mono (hdone x hx) hsub
        · rw [List.mem_singleton] at hx
          subst hx
          intro w hw _
          rw [hv] at hw
          cases hw
          exact ⟨(node.mVoxelCoord + v, k + 1),
            List.mem_append_right _ (List.mem_singleton.mpr rfl), rfl, le_refl _⟩
    · rename_i hc
      refine ⟨h, ?_⟩
      intro x hx
      rcases List.mem_append.mp hx with hx | hx
      · exact hdone x hx
      · rw [List.mem_singleton] at hx
        subst hx
        intro w hw hvalid
        rw [hv] at hw
        cases hw
        have hgr : graphedAt acc.1 (node.mVoxelCoord + v) = true := by
          simp only [Bool.and_eq_true, Bool.not_eq_true', not_and,
            Bool.not_eq_false] at hc
          exact hc hvalid
        obtain ⟨p, hp, hpc⟩ := h.graphed_in _ hgr
        exact ⟨p, hp, hpc, h.frontier _ hcur p hp⟩

theorem visitNeighbours_bfs {F : Type} {e : Extent} {bridges : List Vector3i} {i k : Nat}
    {node : TransferNode} (hk : node.mGeneration = some k) (ds : List Nat) :
    ∀ (done : List Nat) (acc : GraphState F × Bool), GraphInv e acc.1 →
      acc.1.mTransferGraph[i]? = some node →
      LoopInv e bridges (graphedAt acc.1) (entries acc.1.mTransferGraph) i →
      (∀ x ∈ done, ClosedAt e (entries acc.1.mTransferGraph) (node.mVoxelCoord, k) x) →
      LoopInv e bridges
        (graphedAt (ds.foldl (visitNeighbour e i node.mVoxelCoord k) acc).1)
        (entries (ds.foldl (visitNeighbour e i node.mVoxelCoord k) acc).1.mTransferGraph)
        i ∧
      ∀ x ∈ done ++ ds,
        ClosedAt e
          (entries (ds.foldl (visitNeighbour e i node.mVoxelCoord k) acc).1.mTransferGraph)
          (node.mVoxelCoord, k) x := by
  induction ds with
  | nil =>
    intro done acc _ _ h hdone
    refine ⟨h, ?_⟩
    intro x hx
    rw [List.append_nil] at hx
    exact hdone x hx
  | cons d ds ih =>
    intro done acc hG hi h hdone
    obtain ⟨hG2, hi2⟩ := visitNeighbour_inv hk acc d hG hi
    obtain ⟨h2, hdone2⟩ := visitNeighbour_bfs done hk acc d hi h hdone
    have := ih (done ++ [d]) _ hG2 hi2 h2 hdone2
    rw [List.append_assoc, List.singleton_append] at this
    exact this

theorem expandNode_bfs {F : Type} {e : Extent} {bridges : List Vector3i}
    {s : GraphState F} {i : Nat} (hG : GraphInv e s)
    (h : LoopInv e bridges (graphedAt s) (entries s.mTransferGraph) i)
    (hi : i < s.mTransferGraph.length) :
    LoopInv e bridges (graphedAt (expandNode e s i))
      (entries (expandNode e s i).mTransferGraph) (i + 1) := by
  unfold expandNode
  split
  · rename_i hnone
    rw [List.getElem?_eq_none_iff] at hnone
    omega
  · rename_i node hnode
    obtain ⟨k, hk⟩ := linked_generation_isSome hG.linked hnode
    have hgd : node.mGeneration.getD 0 = k := by rw [hk]; rfl
    rw [hgd]
    dsimp only
    have hinv := visitNeighbours_inv hk (List.range 26) (s, false) hG hnode
    have hbfs := visitNeighbours_bfs hk (List.range 26) [] (s, false) hG hnode h
      (fun x hx => absurd hx (List.not_mem_nil x))
    rw [List.nil_append] at hbfs
    have hcur := entries_getElem? hinv.2
    rw [hgd] at hcur
    have hadv := loopInv_advance hbfs.1 hcur hbfs.2
    split
    · exact hadv
    · show LoopInv e bridges (graphedAt _) (entries (List.set _ i _)) (i + 1)
      rw [entries_setDeadEnd hinv.2]
      exact hadv

theorem expandFrom_bfs {F : Type} {e : Extent} {bridges : List Vector3i} :
    ∀ (fuel i : Nat) (s : GraphState F), GraphInv e s →
      LoopInv e bridges (graphedAt s) (entries s.mTransferGraph) i →
      e.cells ≤ fuel + i →
      ∃ j, LoopInv e bridges (graphedAt (expandFrom e fuel i s))
          (entries (expandFrom e fuel i s).mTransferGraph) j ∧
        (expandFrom e fuel i s).mTransferGraph.length ≤ j
  | 0, i, s, hG, h, hc => by
    have hlen := graphInv_length_le hG
    exact ⟨i, h, by show s.mTransferGraph.length ≤ i; omega⟩
  | fuel + 1, i, s, hG, h, hc => by
    unfold expandFrom
    split
    · rename_i hi
      exact expandFrom_bfs fuel (i + 1) _ (expandNode_inv hG i) (expandNode_bfs hG h hi)
        (by omega)
    · exact ⟨i, h, by omega⟩

theorem addSource_seed {F : Type} {e : Extent} {bridges : List Vector3i}
    {s : GraphState F} {c : Vector3i} (hc : c ∈ bridges)
    (h : SeedInv e bridges (graphedAt s) (entries s.mTransferGraph)) :
    SeedInv e bridges (graphedAt (addSource e s c))
      (entries (addSource e s c).mTransferGraph) ∧
    (∀ p ∈ entries s.mTransferGraph, p ∈ entries (addSource e s c).mTransferGraph) ∧
    (validCoord e c = true →
      ∃ p ∈ entries (addSource e s c).mTransferGraph, p.1 = c) := by
  unfold addSource
  split
  · rename_i hcond
    simp only [Bool.and_eq_true, Bool.not_eq_true'] at hcond
    dsimp only
    rw [entries_append]
    refine ⟨⟨?_, ?_⟩, fun p hp => List.mem_append_left _ hp,
      fun _ => ⟨_, List.mem_append_right _ (List.mem_singleton.mpr rfl), rfl⟩⟩
    · intro t ht
      by_cases htc : t = c
      · exact ⟨_, List.mem_append_right _ (List.mem_singleton.mpr rfl), htc.symm⟩
      · have hgr : graphedAt s t = true := by
          simpa [graphedAt, markGraphed, htc] using ht
        obtain ⟨p, hp, hpc⟩ := h.graphed_in t hgr
        exact ⟨p, List.mem_append_left _ hp, hpc⟩
    · intro p hp
      rcases List.mem_append.mp hp with hp | hp
      · exact h.seeds p hp
      · rw [List.mem_singleton] at hp
        subst hp
        exact ⟨rfl, hc, hcond.1⟩
  · rename_i hcond
    refine ⟨h, fun p hp => hp, ?_⟩
    intro hv
    have hgr : graphedAt s c = true := by
      simp only [Bool.and_eq_true, Bool.not_eq_true', not_and, Bool.not_eq_false] at hcond
      exact hcond hv
    exact h.graphed_in c hgr

theorem addSources_seed {F : Type} {e : Extent} {bridges : List Vector3i}
    (cs : List Vector3i) :
    ∀ (s : GraphState F), (∀ c ∈ cs, c ∈ bridges) →
      SeedInv e bridges (graphedAt s) (entries s.mTransferGraph) →
      SeedInv e bridges (graphedAt (cs.foldl (addSource e) s))
        (entries (cs.foldl (addSource e) s).mTransferGraph) ∧
      (∀ p ∈ entries s.mTransferGraph,
        p ∈ entries (cs.foldl (addSource e) s).mTransferGraph) ∧
      (∀ c ∈ cs, validCoord e c = true →
        ∃ p ∈ entries (cs.foldl (addSource e) s).mTransferGraph, p.1 = c) := by
  induction cs with
  | nil =>
    intro s _ h
    exact ⟨h, fun p hp => hp, fun c hc => absurd hc (List.not_mem_nil c)⟩
  | cons c cs ih =>
    intro s hsub h
    obtain ⟨h1, h2, h3⟩ := addSource_seed (hsub c (List.mem_cons_self c cs)) h
    obtain ⟨k1, k2, k3⟩ := ih (addSource e s c)
      (fun x hx => hsub x (List.mem_cons_of_mem c hx)) h1
    refine ⟨k1, fun p hp => k2 p (h2 p hp), ?_⟩
    intro x hx hv
    rcases List.mem_cons.mp hx with hx | hx
    · subst hx
      obtain ⟨p, hp, hpc⟩ := h3 hv
      exact ⟨p, k2 p hp, hpc⟩
    · exact k3 x hx hv

theorem loopInv_of_seed {e : Extent} {bridges : List Vector3i} {gr : Vector3i → Bool}
    {L : List (Vector3i × Nat)} (h : SeedInv e bridges gr L)
    (hall : ∀ c ∈ bridges, validCoord e c = true → ∃ p ∈ L, p.1 = c) :
    LoopInv e bridges gr L 0 := by
  refine ⟨h.graphed_in, ?_, ?_, ?_, ?_, ?_⟩
  · intro a b pa pb _ ha _
    have := (h.seeds pa (List.mem_iff_getElem?.mpr ⟨a, ha⟩)).1
    omega
  · intro p hp
    obtain ⟨h0, hb, hv⟩ := h.seeds p hp
    rw [h0]
    exact ReachIn.source p.1 hb hv
  · intro c hc hv
    obtain ⟨p, hp, hpc⟩ := hall c hc hv
    exact ⟨p, hp, hpc, (h.seeds p hp).1⟩
  · intro pi _ q hq
    have := (h.seeds q hq).1
    omega
  · intro a pa ha
    exact absurd ha (Nat.not_lt_zero a)

/-- In the graph built by `buildTransferGraph` the breadth-first loop has run to its end:
the invariant holds with every node expanded. -/
theorem buildTransferGraph_bfs {F : Type} (e : Extent) (bridges : List Vector3i)
    (voxels : Vector3i → VoxelData F) :
    ∃ j, LoopInv e bridges (graphedAt (buildTransferGraph e bridges voxels))
        (entries (buildTransferGraph e bridges voxels).mTransferGraph) j ∧
      (buildTransferGraph e bridges voxels).mTransferGraph.length ≤ j := by
  have hseed0 : SeedInv e bridges
      (graphedAt
        ({ mVoxelData := fun t => { voxels t with mGraphed := false }
           mTransferGraph := [] } : GraphState F))
      (entries ([] : List TransferNode)) := by
    refine ⟨?_, ?_⟩
    · intro c hc
      simp [graphedAt] at hc
    · intro p hp
      simp [entries] at hp
  obtain ⟨h1, _, h3⟩ := addSources_seed bridges _ (fun c hc => hc) hseed0
  exact expandFrom_bfs e.cells 0 _ (addSources_inv bridges (graphInv_empty e _))
    (loopInv_of_seed h1 h3) (Nat.le_add_right _ _)

theorem reachIn_entry {e : Extent} {bridges : List Vector3i} {gr : Vector3i → Bool}
    {L : List (Vector3i × Nat)} {j : Nat} (h : LoopInv e bridges gr L j)
    (hj : L.length ≤ j) (l : Nat) (c : Vector3i) (hr : ReachIn e bridges l c) :
    ∃ q ∈ L, q.1 = c ∧ q.2 ≤ l := by
  induction hr with
  | source c hc hv =>
    obtain ⟨p, hp, h1, h2⟩ := h.sources_in c hc hv
    exact ⟨p, hp, h1, by omega⟩
  | step l a d v _ hd hv ih =>
    obtain ⟨q, hq, hqa, hql⟩ := ih
    obtain ⟨idx, hidx⟩ := List.mem_iff_getElem?.mp hq
    have hlt : idx < L.length := (List.getElem?_eq_some.mp hidx).1
    have hvalid : validCoord e (q.1 + v) = true := by rw [hqa]; exact hv
    obtain ⟨r, hr, h1, h2⟩ := h.closed idx q (by omega) hidx d v hd hvalid
    exact ⟨r, hr, by rw [h1, hqa], by omega⟩

/-- The generation of a node of the built graph is the breadth-first distance of its voxel
from the sources: the voxel is reached in that many steps and in no fewer. -/
theorem buildTransferGraph_distance {F : Type} (e : Extent) (bridges : List Vector3i)
    (voxels : Vector3i → VoxelData F) (i k : Nat) (n : TransferNode)
    (h : (buildTransferGraph e bridges voxels).mTransferGraph[i]? = some n)
    (hk : n.mGeneration = some k) :
    ReachIn e bridges k n.mVoxelCoord ∧
    ∀ l : Nat, ReachIn e bridges l n.mVoxelCoord → k ≤ l := by
  obtain ⟨j, hloop, hj⟩ := buildTransferGraph_bfs e bridges voxels
  have hG := buildTransferGraph_inv e bridges voxels
  have hlen : (entries (buildTransferGraph e bridges voxels).mTransferGraph).length ≤ j := by
    simpa [entries] using hj
  have hentry := entries_getElem? h
  rw [hk] at hentry
  have hmem : (n.mVoxelCoord, k) ∈
      entries (buildTransferGraph e bridges voxels).mTransferGraph :=
    List.mem_iff_getElem?.mpr ⟨i, hentry⟩
  refine ⟨hloop.reach _ hmem, ?_⟩
  intro l hl
  obtain ⟨q, hq, hqc, hql⟩ := reachIn_entry hloop hlen l _ hl
  have hnodup : ((entries (buildTransferGraph e bridges voxels).mTransferGraph).map
      Prod.fst).Nodup := by
    have := hG.distinct
    simpa [entries, List.map_map, Function.comp] using this
  have heq : q = (n.mVoxelCoord, k) :=
    List.inj_on_of_nodup_map hnodup hq hmem hqc
  rw [heq] at hql
  exact hql

/-- C7: in the graph built by `buildTransferGraph`, no node is reached from itself by one
or more feeder links, and from every node the feeder links lead, in finitely many steps, to
a source node, whose feeder index is -1. -/
theorem buildTransferGraph_is_forest {F : Type} (e : Extent) (bridges : List Vector3i)
    (voxels : Vector3i → VoxelData F) (i : Nat)
    (h : i < (buildTransferGraph e bridges voxels).mTransferGraph.length) :
    (∀ k : Nat,
      followFeeder (buildTransferGraph e bridges voxels).mTransferGraph (k + 1) i
        ≠ some i) ∧
    ∃ (k r : Nat) (root : TransferNode),
      followFeeder (buildTransferGraph e bridges voxels).mTransferGraph k i = some r ∧
      (buildTransferGraph e bridges voxels).mTransferGraph[r]? = some root ∧
      root.mSource = true ∧ root.mFeeder = -1 := by
  have hl := (buildTransferGraph_inv e bridges voxels).linked
  refine ⟨?_, ?_⟩
  · intro k hk
    have := linked_followFeeder_le hl (k + 1) i i hk
    omega
  · have hn := List.getElem?_eq_getElem h
    obtain ⟨k, hk⟩ := linked_generation_isSome hl hn
    obtain ⟨r, root, h1, h2, h3, h4, _⟩ := linked_generation_links hl i _ k hn hk
    exact ⟨k, r, root, h1, h2, h3, h4⟩

/-- Witness of `buildTransferGraph_is_forest`: node 3 of the sample graph. -/
theorem buildTransferGraph_is_forest_witness :
    3 < sampleGraph.length ∧ ∀ k : Nat, followFeeder sampleGraph (k + 1) 3 ≠ some 3 :=
  ⟨by decide,
   (buildTransferGraph_is_forest ⟨2, 2, 1⟩ [⟨0, 0, 0⟩] sampleVoxels 3 (by decide)).1⟩

theorem addSource_shaped {F : Type} {e : Extent} {bridges : List Vector3i}
    {s : GraphState F} {c : Vector3i} (hc : c ∈ bridges)
    (h : ∀ n ∈ s.mTransferGraph, SourceShaped bridges n) :
    ∀ n ∈ (addSource e s c).mTransferGraph, SourceShaped bridges n := by
  unfold addSource
  split
  · intro n hn
    rcases List.mem_append.mp hn with hn | hn
    · exact h n hn
    · rw [List.mem_singleton] at hn
      subst hn
      intro _
      exact ⟨rfl, hc⟩
  · exact h

theorem addSources_shaped {F : Type} {e : Extent} {bridges : List Vector3i}
    (cs : List Vector3i) :
    ∀ (s : GraphState F), (∀ c ∈ cs, c ∈ bridges) →
      (∀ n ∈ s.mTransferGraph, SourceShaped bridges n) →
      ∀ n ∈ (cs.foldl (addSource e) s).mTransferGraph, SourceShaped bridges n := by
  induction cs with
  | nil =>
    intro s _ h
    exact h
  | cons c cs ih =>
    intro s hsub h
    exact ih (addSource e s c) (fun x hx => hsub x (List.mem_cons_of_mem c hx))
      (addSource_shaped (hsub c (List.mem_cons_self c cs)) h)

theorem visitNeighbour_shaped {F : Type} {e : Extent} {bridges : List Vector3i}
    (i k : Nat) (coord : Vector3i) (acc : GraphState F × Bool) (d : Nat)
    (h : ∀ n ∈ acc.1.mTransferGraph, SourceShaped bridges n) :
    ∀ n ∈ (visitNeighbour e i coord k acc d).1.mTransferGraph, SourceShaped bridges n := by
  unfold visitNeighbour
  split
  · exact h
  · dsimp only
    split
    · intro n hn
      rcases List.mem_append.mp hn with hn | hn
      · exact h n hn
      · rw [List.mem_singleton] at hn
        subst hn
        intro hsrc
        exact Bool.noConfusion hsrc
    · exact h

theorem visitNeighbours_shaped {F : Type} (e : Extent) {bridges : List Vector3i}
    (i k : Nat) (coord : Vector3i) (ds : List Nat) :
    ∀ (acc : GraphState F × Bool),
      (∀ n ∈ acc.1.mTransferGraph, SourceShaped bridges n) →
      ∀ n ∈ (ds.foldl (visitNeighbour e i coord k) acc).1.mTransferGraph,
        SourceShaped bridges n := by
  induction ds with
  | nil =>
    intro acc h
    exact h
  | cons d ds ih =>
    intro acc h
    exact ih _ (visitNeighbour_shaped i k coord acc d h)

theorem expandNode_shaped {F : Type} {e : Extent} {bridges : List Vector3i}
    {s : GraphState F} (i : Nat) (h : ∀ n ∈ s.mTransferGraph, SourceShaped bridges n) :
    ∀ n ∈ (expandNode e s i).mTransferGraph, SourceShaped bridges n := by
  unfold expandNode
  split
  · exact h
  · rename_i node hnode
    have hfold := visitNeighbours_shaped e i (node.mGeneration.getD 0) node.mVoxelCoord
      (List.range 26) (s, false) h
    dsimp only
    split
    · exact hfold
    · intro n hn
      rcases List.mem_or_eq_of_mem_set hn with hn | hn
      · exact hfold n hn
      · subst hn
        intro hsrc
        obtain ⟨h1, h2⟩ := h node (List.mem_iff_getElem?.mpr ⟨i, hnode⟩) hsrc
        refine ⟨?_, h2⟩
        show ({ node with mDeadEnd := true } : TransferNode) = _
        conv_lhs => rw [h1]

theorem expandFrom_shaped {F : Type} {e : Extent} {bridges : List Vector3i} :
    ∀ (fuel i : Nat) (s : GraphState F),
      (∀ n ∈ s.mTransferGraph, SourceShaped bridges n) →
      ∀ n ∈ (expandFrom e fuel i s).mTransferGraph, SourceShaped bridges n
  | 0, _, _, h => h
  | fuel + 1, i, s, h => by
    unfold expandFrom
    split
    · exact expandFrom_shaped fuel (i + 1) _ (expandNode_shaped i h)
    · exact h

theorem buildTransferGraph_shaped {F : Type} (e : Extent) (bridges : List Vector3i)
    (voxels : Vector3i → VoxelData F) :
    ∀ n ∈ (buildTransferGraph e bridges voxels).mTransferGraph, SourceShaped bridges n :=
  expandFrom_shaped e.cells 0 _
    (addSources_shaped bridges _ (fun _ hc => hc)
      (fun n hn => absurd hn (List.not_mem_nil n)))

/-- C8: in the graph built by `buildTransferGraph` the generation of a node is its
breadth-first distance from the sources.  Every source node, which is the node
`TransferNode(true, c)` of a bridge voxel `c`, has generation 0; every non-source node has
a feeder in the graph and a generation equal to the generation of its feeder plus 1; the
feeder links lead from a node of generation `k` to a source in `k` steps; and the voxel of
a node of generation `k` is reached from the source voxels in `k` neighbour steps inside
the field and in no fewer. -/
theorem buildTransferGraph_generation {F : Type} (e : Extent) (bridges : List Vector3i)
    (voxels : Vector3i → VoxelData F) (i : Nat) (n : TransferNode)
    (h : (buildTransferGraph e bridges voxels).mTransferGraph[i]? = some n) :
    (n.mSource = true →
      n.mGeneration = some 0 ∧
      n = { TransferNode.new true n.mVoxelCoord with
            mGeneration := some 0
            mDeadEnd := n.mDeadEnd } ∧
      n.mVoxelCoord ∈ bridges) ∧
    (n.mSource = false → ∃ (j k : Nat) (feeder : TransferNode),
      n.mFeeder = (j : Int) ∧
      (buildTransferGraph e bridges voxels).mTransferGraph[j]? = some feeder ∧
      feeder.mGeneration = some k ∧ n.mGeneration = some (k + 1)) ∧
    (∃ (k r : Nat) (root : TransferNode), n.mGeneration = some k ∧
      followFeeder (buildTransferGraph e bridges voxels).mTransferGraph k i = some r ∧
      (buildTransferGraph e bridges voxels).mTransferGraph[r]? = some root ∧
      root.mSource = true) ∧
    (∃ k : Nat, n.mGeneration = some k ∧ ReachIn e bridges k n.mVoxelCoord ∧
      ∀ l : Nat, ReachIn e bridges l n.mVoxelCoord → k ≤ l) := by
  have hl := (buildTransferGraph_inv e bridges voxels).linked
  refine ⟨?_, ?_, ?_, ?_⟩
  · intro hsrc
    have hshape := buildTransferGraph_shaped e bridges voxels n
      (List.mem_iff_getElem?.mpr ⟨i, h⟩) hsrc
    rcases hl i n h with ⟨_, _, h3⟩ | ⟨h1, _⟩
    · exact ⟨h3, hshape⟩
    · rw [h1] at hsrc
      cases hsrc
  · intro hsrc
    rcases hl i n h with ⟨h1, _⟩ | ⟨_, j, k, _, h2, h3, h4⟩
    · rw [h1] at hsrc
      cases hsrc
    · have hjl := generationAt_lt h3
      refine ⟨j, k, _, h2, List.getElem?_eq_getElem hjl, ?_, h4⟩
      simpa [generationAt, List.getElem?_eq_getElem hjl] using h3
  · obtain ⟨k, hk⟩ := linked_generation_isSome hl h
    obtain ⟨r, root, h1, h2, h3, _⟩ := linked_generation_links hl i n k h hk
    exact ⟨k, r, root, hk, h1, h2, h3⟩
  · obtain ⟨k, hk⟩ := linked_generation_isSome hl h
    exact ⟨k, hk, buildTransferGraph_distance e bridges voxels i k n h hk⟩

/-- Witness of `buildTransferGraph_generation`: node 2 of the sample line is the voxel
(2, 0, 0), fed by node 1, at generation 2, two steps from the source voxel and no fewer. -/
theorem buildTransferGraph_generation_witness :
    sampleLine[2]? = some
      { mSource := false
        mFeeder := 1
        mFeederDirection := 3
        mVoxelCoord := ⟨2, 0, 0⟩
        mGeneration := some 2
        mDeadEnd := true } ∧
    ∃ k : Nat, some 2 = some k ∧ ReachIn ⟨3, 1, 1⟩ [⟨0, 0, 0⟩] k ⟨2, 0, 0⟩ ∧
      ∀ l : Nat, ReachIn ⟨3, 1, 1⟩ [⟨0, 0, 0⟩] l ⟨2, 0, 0⟩ → k ≤ l :=
  ⟨by decide,
   (buildTransferGraph_generation ⟨3, 1, 1⟩ [⟨0, 0, 0⟩] sampleVoxels 2
      { mSource := false
        mFeeder := 1
        mFeederDirection := 3
        mVoxelCoord := ⟨2, 0, 0⟩
        mGeneration := some 2
        mDeadEnd := true } (by decide)).2.2.2⟩

end EnergyGrid

/-! ## MatterNode -/

/-- On a node that is up to date `simulateSelf` does nothing. -/
theorem simulateSelf_of_upToDate {M D : Type} (convert : MatterNode M → MatterNode M)
    (s : Simulation M) (dt : D) (h : s.node.mUpToDate = true) :
    simulateSelf convert s dt = s := by
  simp [simulateSelf, h]

/-- From a node that is up to date, any sequence of `simulateSelf` calls does nothing. -/
theorem simulateMany_of_upToDate {M D : Type} (convert : MatterNode M → MatterNode M)
    (dts : List D) (s : Simulation M) (h : s.node.mUpToDate = true) :
    simulateMany convert s dts = s := by
  induction dts with
  | nil => rfl
  | cons dt dts ih =>
    simp only [simulateMany, List.foldl_cons] at ih ⊢
    rw [simulateSelf_of_upToDate convert s dt h]
    exact ih

/-- After `simulateSelf` the node is up to date. -/
theorem simulateSelf_upToDate {M D : Type} (convert : MatterNode M → MatterNode M)
    (s : Simulation M) (dt : D) :
    (simulateSelf convert s dt).node.mUpToDate = true := by
  unfold simulateSelf
  cases h : s.node.mUpToDate <;> simp [h]

/-- C10: `simulateSelf` invokes the converter exactly when `mUpToDate` is false, and
leaves `mUpToDate` true: on a node that is not up to date the node afterwards is the
converter applied once to the node, with `mUpToDate` set, and one conversion is counted;
on a node that is up to date the node is untouched and no conversion is counted.  Both
constructors leave `mUpToDate` false; so on a freshly constructed node a non-empty
sequence `dt :: dts` of calls, with any time steps, invokes the converter exactly once, in
the first call: the node at the end is the converter applied once to the fresh node, one
conversion is counted, and the state is the one the first call left.  A second consecutive
call changes nothing. -/
theorem simulateSelf_converts_once {M D : Type} (convert : MatterNode M → MatterNode M)
    (s : Simulation M) (matter : M) (f g : M → M) (k : Nat) (dt dt2 : D) (dts : List D) :
    ((simulateSelf convert s dt).conversions = s.conversions + 1 ↔
      s.node.mUpToDate = false) ∧
    ((simulateSelf convert s dt).conversions = s.conversions ↔
      s.node.mUpToDate = true) ∧
    (simulateSelf convert s dt).node.mUpToDate = true ∧
    (MatterNode.fromFile matter f g).mUpToDate = false ∧
    (MatterNode.fromVoxelField matter f g).mUpToDate = false ∧
    (simulateSelf convert ⟨MatterNode.fromFile matter f g, k⟩ dt).conversions = k + 1 ∧
    (simulateSelf convert ⟨MatterNode.fromVoxelField matter f g, k⟩ dt).conversions
      = k + 1 ∧
    (simulateMany convert ⟨MatterNode.fromFile matter f g, k⟩ (dt :: dts)).conversions
      = k + 1 ∧
    (simulateMany convert ⟨MatterNode.fromVoxelField matter f g, k⟩
      (dt :: dts)).conversions = k + 1 ∧
    simulateMany convert ⟨MatterNode.fromFile matter f g, k⟩ (dt :: dts) =
      simulateSelf convert ⟨MatterNode.fromFile matter f g, k⟩ dt ∧
    simulateMany convert ⟨MatterNode.fromVoxelField matter f g, k⟩ (dt :: dts) =
      simulateSelf convert ⟨MatterNode.fromVoxelField matter f g, k⟩ dt ∧
    simulateSelf convert (simulateSelf convert s dt) dt2 = simulateSelf convert s dt ∧
    (simulateSelf convert s dt).node =
      (if s.node.mUpToDate then s.node else { convert s.node with mUpToDate := true }) ∧
    (simulateMany convert ⟨MatterNode.fromFile matter f g, k⟩ (dt :: dts)).node =
      { convert (MatterNode.fromFile matter f g) with mUpToDate := true } ∧
    (simulateMany convert ⟨MatterNode.fromVoxelField matter f g, k⟩ (dt :: dts)).node =
      { convert (MatterNode.fromVoxelField matter f g) with mUpToDate := true } := by
  have hmany : ∀ t : Simulation M,
      simulateMany convert t (dt :: dts) = simulateSelf convert t dt := by
    intro t
    show simulateMany convert (simulateSelf convert t dt) dts = simulateSelf convert t dt
    exact simulateMany_of_upToDate convert dts _ (simulateSelf_upToDate convert t dt)
  have hfirst : ∀ n : MatterNode M, n.mUpToDate = false →
      (simulateSelf convert ⟨n, k⟩ dt).conversions = k + 1 := by
    intro n hn
    simp [simulateSelf, hn]
  have hnode : ∀ n : MatterNode M, n.mUpToDate = false →
      (simulateSelf convert ⟨n, k⟩ dt).node = { convert n with mUpToDate := true } := by
    intro n hn
    simp [simulateSelf, hn]
  refine ⟨?_, ?_, simulateSelf_upToDate convert s dt, rfl, rfl, hfirst _ rfl, hfirst _ rfl,
    ?_, ?_, hmany _, hmany _, ?_, ?_, ?_, ?_⟩
  · unfold simulateSelf
    cases h : s.node.mUpToDate <;> simp [h]
  · unfold simulateSelf
    cases h : s.node.mUpToDate <;> simp [h]
  · rw [hmany]; exact hfirst _ rfl
  · rw [hmany]; exact hfirst _ rfl
  · exact simulateSelf_of_upToDate convert _ dt2 (simulateSelf_upToDate convert s dt)
  · unfold simulateSelf
    cases h : s.node.mUpToDate <;> simp [h]
  · rw [hmany]; exact hnode _ rfl
  · rw [hmany]; exact hnode _ rfl
